import Mathlib

/-!
Shallow embedding of the `StorybookReporter` adapter
(`reporters/storybook/src/StorybookReporter.ts` together with its type
declarations in `reporters/storybook/src/types.ts`) of the tdd-guard
repository, and proofs about the properties of its accumulation,
reduction and persistence logic.

Modelling conventions:
* TypeScript `unknown` values that flow through the error-mapping code are
  embedded as the inductive `JSValue` (null, undefined, strings, numbers,
  booleans and plain objects).  JavaScript numbers are modelled as `Int`.
* A JavaScript property access `o.k` throws a `TypeError` when `o` is
  `null` or `undefined`; this is embedded by `getProp` returning
  `Except.error`.  Code that can throw is embedded in the `Except String`
  monad; `Except.error` is a raised exception.
* The JavaScript insertion-ordered `Map<string, StoryTest[]>` backing
  `collectedTests` is embedded as an association list
  `List (String × List StoryTest)`; `addTest` reproduces
  `set(moduleId, [])` / `get(moduleId)!.push(test)` semantics, appending a
  fresh key at the end exactly as `Map` iteration order does.
* `JSON.stringify(output, null, 2)` is embedded by `serializeOutput`,
  preserving key order and the omission of `undefined`-valued optional
  fields; the pretty-printing whitespace of the indent argument is
  abstracted away, which is irrelevant to every statement below.
* The `Storage.saveTest` collaborator is external to the repository; the
  sequence of strings handed to it is recorded in `World.writes`.
-/

/-- The closed test-state enumeration of `StoryTest.state`:
`'passed' | 'failed' | 'skipped'`. -/
inductive TestState where
  | passed
  | failed
  | skipped
deriving DecidableEq, BEq

/-- The run-reason enumeration of `TestRunOutput.reason`:
`'passed' | 'failed' | 'interrupted'` (the field itself is optional). -/
inductive RunReason where
  | passed
  | failed
  | interrupted
deriving DecidableEq, BEq

mutual
/-- Embedding of the JavaScript values that can appear as `unknown` error
entries: null, undefined, strings, numbers (as `Int`), booleans and plain
objects with ordered string-keyed fields. -/
inductive JSValue where
  | null
  | undefined
  | str (s : String)
  | num (n : Int)
  | bool (b : Bool)
  | obj (fields : JSFields)

/-- Ordered field list of a plain JavaScript object. -/
inductive JSFields where
  | nil
  | cons (key : String) (value : JSValue) (rest : JSFields)
end

/-- Own-property lookup on an object's field list. -/
def JSFields.find : JSFields → String → Option JSValue
  | JSFields.nil, _ => none
  | JSFields.cons k v rest, key => if k = key then some v else JSFields.find rest key

/-- Embedding of a JavaScript property access `v[key]`: throws a
`TypeError` on `null` and `undefined`, yields the own property (or
`undefined`) on objects, and `undefined` on the other primitives. -/
def getProp (v : JSValue) (key : String) : Except String JSValue :=
  match v with
  | JSValue.null =>
      Except.error ("TypeError: Cannot read properties of null (reading " ++ key ++ ")")
  | JSValue.undefined =>
      Except.error ("TypeError: Cannot read properties of undefined (reading " ++ key ++ ")")
  | JSValue.obj fields => Except.ok ((fields.find key).getD JSValue.undefined)
  | _ => Except.ok JSValue.undefined

/-- Embedding of the JavaScript string conversion `String(v)` for the
modelled value universe. -/
def jsString : JSValue → String
  | JSValue.null => "null"
  | JSValue.undefined => "undefined"
  | JSValue.str s => s
  | JSValue.num n => toString n
  | JSValue.bool true => "true"
  | JSValue.bool false => "false"
  | JSValue.obj _ => "[object Object]"

/-- `StoryError` of `types.ts`.  `message` is a string; `stack` holds the
raw value of `errorObj.stack` (the source applies only a type cast, so at
runtime any value can land there, `undefined` meaning absent); `expected`
and `actual` are declared optional and never assigned by this adapter. -/
structure StoryError where
  message : String
  stack : JSValue
  expected : Option JSValue
  actual : Option JSValue

/-- `StoryTest` of `types.ts`. -/
structure StoryTest where
  name : String
  fullName : String
  state : TestState
  errors : Option (List StoryError)

/-- `StoryModule` of `types.ts`. -/
structure StoryModule where
  moduleId : String
  tests : List StoryTest

/-- `TestRunOutput` of `types.ts`.  `reason := none` embeds the absent
(`undefined`) optional field. -/
structure TestRunOutput where
  testModules : List StoryModule
  unhandledErrors : List JSValue
  reason : Option RunReason

/-- `TestContext` of `types.ts`: story id, component title and story
name (the name comes directly from the context). -/
structure TestContext where
  id : String
  title : String
  name : String

/-- The reporter's private accumulation state
`collectedTests: Map<string, StoryTest[]>`, as an insertion-ordered
association list. -/
structure Reporter where
  collectedTests : List (String × List StoryTest)

/-- The reporter state with an empty accumulation map: a freshly
constructed `StorybookReporter`. -/
def emptyReporter : Reporter := { collectedTests := [] }

/-- Embedding of the `collectedTests` update performed at the end of
`onStoryResult`:
`if (!map.has(moduleId)) map.set(moduleId, []); map.get(moduleId)!.push(test)`.
A missing key is appended at the end, matching `Map` insertion order. -/
def addTest : List (String × List StoryTest) → String → StoryTest →
    List (String × List StoryTest)
  | [], moduleId, test => [(moduleId, [test])]
  | (k, ts) :: rest, moduleId, test =>
      if k = moduleId then (k, ts ++ [test]) :: rest
      else (k, ts) :: addTest rest moduleId test

/-- The reporter after recording `test` under `moduleId`. -/
def insertCollected (r : Reporter) (moduleId : String) (test : StoryTest) : Reporter :=
  { collectedTests := addTest r.collectedTests moduleId test }

/-- Embedding of the error-entry mapping inside `onStoryResult`:
`const errorObj = err as Record<string, unknown>;
 const message = errorObj.message;
 return { message: typeof message === 'string' ? message : String(err),
          stack: errorObj.stack as string | undefined }`.
Both property accesses throw on a nullish entry (the `as` casts are
erased at runtime), which `Except.error` embeds. -/
def mapStoryError (err : JSValue) : Except String StoryError := do
  let message ← getProp err "message"
  let stackVal ← getProp err "stack"
  Except.ok
    { message := match message with | JSValue.str s => s | _ => jsString err
      stack := stackVal
      expected := none
      actual := none }

/-- Embedding of the `test` object construction in `onStoryResult`: the
literal `{ name, fullName, state }` followed by the conditional
`if (errors && errors.length > 0) test.errors = errors.map(...)`. -/
def makeStoryTest (context : TestContext) (status : TestState)
    (errors : Option (List JSValue)) : Except String StoryTest :=
  let test : StoryTest :=
    { name := context.name
      fullName := context.title ++ " > " ++ context.name
      state := status
      errors := none }
  match errors with
  | some errs =>
      if errs.length > 0 then do
        let mapped ← errs.mapM mapStoryError
        Except.ok { test with errors := some mapped }
      else Except.ok test
  | none => Except.ok test

/-- `StorybookReporter.onStoryResult(context, status, errors)`: builds the
`StoryTest` (possibly raising while mapping the error entries — the
accumulation map is only touched afterwards, as in the source) and pushes
it into `collectedTests` keyed by `context.id`. -/
def onStoryResult (r : Reporter) (context : TestContext) (status : TestState)
    (errors : Option (List JSValue)) : Except String Reporter :=
  (makeStoryTest context status errors).map (fun t => insertCollected r context.id t)

/-- The call `onStoryResult(context)` with both optional parameters
omitted: the source declares `status: 'passed' | 'failed' | 'skipped' =
'passed'` and `errors?: unknown[]`, so the omitted arguments are
`'passed'` and `undefined`. -/
def onStoryResultDefault (r : Reporter) (context : TestContext) : Except String Reporter :=
  onStoryResult r context TestState.passed none

/-- `StorybookReporter.determineReason(testModules)`: flattens all tests,
returns `undefined` when there are none, `'failed'` when any test failed,
`'passed'` otherwise. -/
def determineReason (testModules : List StoryModule) : Option RunReason :=
  let allTests := testModules.flatMap (fun m => m.tests)
  if allTests.length = 0 then none
  else if allTests.any (fun t => t.state == TestState.failed) then some RunReason.failed
  else some RunReason.passed

/-- The `TestRunOutput` object built inside `onComplete`:
`Array.from(collectedTests.entries()).map(([moduleId, tests]) => ({moduleId, tests}))`
together with the empty `unhandledErrors` and the reduced `reason`. -/
def buildOutput (r : Reporter) : TestRunOutput :=
  let testModules : List StoryModule :=
    r.collectedTests.map (fun p => { moduleId := p.1, tests := p.2 })
  { testModules := testModules
    unhandledErrors := []
    reason := determineReason testModules }

/-- One JSON string-escape step for a character, as `JSON.stringify`
escapes string content. -/
def escapeChar (c : Char) : String :=
  if c = '"' then "\\\""
  else if c = '\\' then "\\\\"
  else if c = '\n' then "\\n"
  else if c = '\t' then "\\t"
  else if c = '\r' then "\\r"
  else String.singleton c

/-- A JSON string literal with escaped content. -/
def jsonQuote (s : String) : String :=
  "\"" ++ String.join (s.toList.map escapeChar) ++ "\""

/-- Comma-joined JSON fragments. -/
def joinComma (xs : List String) : String := String.intercalate "," xs

mutual
/-- `JSON.stringify` of an embedded JavaScript value. -/
def serializeJSValue : JSValue → String
  | JSValue.null => "null"
  | JSValue.undefined => "null"
  | JSValue.str s => jsonQuote s
  | JSValue.num n => toString n
  | JSValue.bool true => "true"
  | JSValue.bool false => "false"
  | JSValue.obj fields => "\x7b" ++ joinComma (serializeJSFields fields) ++ "\x7d"

/-- `JSON.stringify` of an object's fields; fields whose value is
`undefined` are omitted, as `JSON.stringify` omits them. -/
def serializeJSFields : JSFields → List String
  | JSFields.nil => []
  | JSFields.cons k v rest =>
      match v with
      | JSValue.undefined => serializeJSFields rest
      | _ => (jsonQuote k ++ ":" ++ serializeJSValue v) :: serializeJSFields rest
end

/-- The serialized state strings of `types.ts`. -/
def stateString : TestState → String
  | TestState.passed => "passed"
  | TestState.failed => "failed"
  | TestState.skipped => "skipped"

/-- The serialized reason strings of `types.ts`. -/
def reasonString : RunReason → String
  | RunReason.passed => "passed"
  | RunReason.failed => "failed"
  | RunReason.interrupted => "interrupted"

/-- `JSON.stringify` of a `StoryError`: `message` always present,
`stack` omitted when `undefined`, `expected`/`actual` omitted when
absent. -/
def serializeStoryError (e : StoryError) : String :=
  "\x7b\"message\":" ++ jsonQuote e.message
    ++ (match e.stack with
        | JSValue.undefined => ""
        | v => ",\"stack\":" ++ serializeJSValue v)
    ++ (match e.expected with
        | none => ""
        | some v => ",\"expected\":" ++ serializeJSValue v)
    ++ (match e.actual with
        | none => ""
        | some v => ",\"actual\":" ++ serializeJSValue v)
    ++ "\x7d"

/-- `JSON.stringify` of a `StoryTest`; the optional `errors` field is
omitted when it was never assigned. -/
def serializeStoryTest (t : StoryTest) : String :=
  "\x7b\"name\":" ++ jsonQuote t.name
    ++ ",\"fullName\":" ++ jsonQuote t.fullName
    ++ ",\"state\":" ++ jsonQuote (stateString t.state)
    ++ (match t.errors with
        | none => ""
        | some es => ",\"errors\":[" ++ joinComma (es.map serializeStoryError) ++ "]")
    ++ "\x7d"

/-- `JSON.stringify` of a `StoryModule`. -/
def serializeStoryModule (m : StoryModule) : String :=
  "\x7b\"moduleId\":" ++ jsonQuote m.moduleId
    ++ ",\"tests\":[" ++ joinComma (m.tests.map serializeStoryTest) ++ "]\x7d"

/-- `JSON.stringify(output, null, 2)` of the built `TestRunOutput`, with
the indentation whitespace abstracted away: key order and the omission of
the absent `reason` field are preserved. -/
def serializeOutput (o : TestRunOutput) : String :=
  "\x7b\"testModules\":[" ++ joinComma (o.testModules.map serializeStoryModule) ++ "]"
    ++ ",\"unhandledErrors\":[" ++ joinComma (o.unhandledErrors.map serializeJSValue) ++ "]"
    ++ (match o.reason with
        | none => ""
        | some reas => ",\"reason\":" ++ jsonQuote (reasonString reas))
    ++ "\x7d"

/-- The reporter together with the log of strings handed to
`storage.saveTest`: the observable effect of the adapter on the external
Result Store. -/
structure World where
  reporter : Reporter
  writes : List String

/-- `StorybookReporter.onComplete()`: derives the `TestRunOutput` from the
unchanged accumulated state and hands its serialization to
`storage.saveTest`.  `collectedTests` is not modified. -/
def onComplete (w : World) : World :=
  { reporter := w.reporter
    writes := w.writes ++ [serializeOutput (buildOutput w.reporter)] }

/-- One observed `onStoryResult` invocation: its context and the (possibly
defaulted) status and errors arguments. -/
structure StoryCall where
  context : TestContext
  status : TestState
  errors : Option (List JSValue)

/-- Replaying a sequence of `onStoryResult` invocations against a
reporter; stops at the first raised exception, whose call leaves the
accumulation map untouched. -/
def runCalls (r : Reporter) : List StoryCall → Except String Reporter
  | [] => Except.ok r
  | c :: cs => do
      let r' ← onStoryResult r c.context c.status c.errors
      runCalls r' cs

/-- The key sequence of the accumulation map: the `moduleId`s in
insertion order. -/
def keysOf (m : List (String × List StoryTest)) : List String := m.map Prod.fst

/-- The tests recorded under a `moduleId` (first matching entry, empty
when absent), mirroring `collectedTests.get(moduleId)`. -/
def moduleTests : List (String × List StoryTest) → String → List StoryTest
  | [], _ => []
  | (k, ts) :: rest, id => if k = id then ts else moduleTests rest id

/-- All recorded tests in map order. -/
def flatTests : List (String × List StoryTest) → List StoryTest
  | [] => []
  | (_, ts) :: rest => ts ++ flatTests rest

/-- First-seen deduplication continuing from an already-seen accumulator:
each identifier is appended the first time it occurs. -/
def firstSeenFrom (acc : List String) : List String → List String
  | [] => acc
  | i :: is => firstSeenFrom (if i ∈ acc then acc else acc ++ [i]) is

/-- The order in which distinct identifiers are first seen in a list. -/
def firstSeen (ids : List String) : List String := firstSeenFrom [] ids

/-- The tests a call sequence successfully records under one module
identifier, in call order. -/
def successfulTests (calls : List StoryCall) (id : String) : List StoryTest :=
  (calls.filter (fun c => c.context.id = id)).filterMap
    (fun c => (makeStoryTest c.context c.status c.errors).toOption)

/-- Total own-property read used to state properties of non-nullish
values: the field when the value is an object that has it, `undefined`
otherwise. -/
def propOrUndefined (v : JSValue) (key : String) : JSValue :=
  match v with
  | JSValue.obj fields => (fields.find key).getD JSValue.undefined
  | _ => JSValue.undefined

/-- Recording a test adds the module identifier to the key sequence only
when it is new, and then at the end. -/
lemma keysOf_addTest (m : List (String × List StoryTest)) (i : String) (t : StoryTest) :
    keysOf (addTest m i t) = if i ∈ keysOf m then keysOf m else keysOf m ++ [i] := by
  induction m with
  | nil => simp [addTest, keysOf]
  | cons hd rest ih =>
      obtain ⟨k, ts⟩ := hd
      by_cases hk : k = i
      · simp [addTest, keysOf, hk]
      · have hik : ¬ i = k := fun h => hk h.symm
        have hcons : keysOf ((k, ts) :: addTest rest i t) = k :: keysOf (addTest rest i t) := rfl
        have hcons' : keysOf ((k, ts) :: rest) = k :: keysOf rest := rfl
        rw [show addTest ((k, ts) :: rest) i t = (k, ts) :: addTest rest i t from by
              simp [addTest, hk],
            hcons, hcons', ih]
        by_cases hm : i ∈ keysOf rest
        · simp [List.mem_cons, hik, hm]
        · simp [List.mem_cons, hik, hm]

/-- Recording a test under `i` appends it to module `i`'s test sequence
and leaves every other module unchanged. -/
lemma moduleTests_addTest (m : List (String × List StoryTest)) (i : String)
    (t : StoryTest) (id : String) :
    moduleTests (addTest m i t) id =
      if id = i then moduleTests m id ++ [t] else moduleTests m id := by
  induction m with
  | nil =>
      by_cases h : id = i
      · simp [addTest, moduleTests, h]
      · have h' : ¬ i = id := fun hh => h hh.symm
        simp [addTest, moduleTests, h, h']
  | cons hd rest ih =>
      obtain ⟨k, ts⟩ := hd
      by_cases hk : k = i
      · subst hk
        by_cases hid : id = k
        · simp [addTest, moduleTests, hid]
        · have hid' : ¬ k = id := fun hh => hid hh.symm
          simp [addTest, moduleTests, hid, hid']
      · by_cases hid : k = id
        · subst hid
          have h1 : ¬ k = i := hk
          simp [addTest, moduleTests, hk, h1]
        · simp [addTest, moduleTests, hk, hid, ih]

/-- Recording a test grows the flattened test sequence by exactly one. -/
lemma flatTests_addTest_length (m : List (String × List StoryTest)) (i : String)
    (t : StoryTest) :
    (flatTests (addTest m i t)).length = (flatTests m).length + 1 := by
  induction m with
  | nil => simp [addTest, flatTests]
  | cons hd rest ih =>
      obtain ⟨k, ts⟩ := hd
      by_cases hk : k = i
      · simp [addTest, flatTests, hk]; omega
      · simp [addTest, flatTests, hk, ih]; omega

/-- Every test in the map after recording one was already there or is the
recorded test. -/
lemma mem_flatTests_addTest (m : List (String × List StoryTest)) (i : String)
    (t x : StoryTest) (h : x ∈ flatTests (addTest m i t)) :
    x ∈ flatTests m ∨ x = t := by
  induction m with
  | nil =>
      simp [addTest, flatTests] at h
      exact Or.inr h
  | cons hd rest ih =>
      obtain ⟨k, ts⟩ := hd
      by_cases hk : k = i
      · simp only [addTest, if_pos hk, flatTests, List.mem_append] at h
        rcases h with (h | h) | h
        · exact Or.inl (by simp [flatTests]; exact Or.inl h)
        · exact Or.inr (by simpa using h)
        · exact Or.inl (by simp [flatTests]; exact Or.inr h)
      · simp only [addTest, if_neg hk, flatTests, List.mem_append] at h
        rcases h with h | h
        · exact Or.inl (by simp [flatTests]; exact Or.inl h)
        · rcases ih h with h' | h'
          · exact Or.inl (by simp [flatTests]; exact Or.inr h')
          · exact Or.inr h'

/-- With pairwise-distinct keys, an entry's test list is what the map
lookup yields at its key. -/
lemma moduleTests_of_mem (m : List (String × List StoryTest))
    (h : (keysOf m).Nodup) (k : String) (ts : List StoryTest)
    (hm : (k, ts) ∈ m) : moduleTests m k = ts := by
  induction m with
  | nil => simp at hm
  | cons hd rest ih =>
      obtain ⟨k0, ts0⟩ := hd
      have hcons : keysOf ((k0, ts0) :: rest) = k0 :: keysOf rest := rfl
      rw [hcons] at h
      rcases List.mem_cons.mp hm with heq | hmem
      · injection heq with h1 h2
        subst h1; subst h2
        simp [moduleTests]
      · have hk : k ∈ keysOf rest := by
          simpa [keysOf] using List.mem_map_of_mem Prod.fst hmem
        have hne : ¬ k0 = k := by
          intro hkk
          exact (List.nodup_cons.mp h).1 (hkk ▸ hk)
        simp only [moduleTests, if_neg hne]
        exact ih (List.nodup_cons.mp h).2 hmem

/-- The already-seen accumulator survives first-seen deduplication. -/
lemma mem_firstSeenFrom_left (ids : List String) :
    ∀ acc x, x ∈ acc → x ∈ firstSeenFrom acc ids := by
  induction ids with
  | nil => intro acc x hx; simpa [firstSeenFrom] using hx
  | cons i is ih =>
      intro acc x hx
      simp only [firstSeenFrom]
      by_cases hi : i ∈ acc
      · simpa [hi] using ih acc x hx
      · simp only [if_neg hi]
        exact ih (acc ++ [i]) x (List.mem_append.mpr (Or.inl hx))

/-- Every identifier of the input occurs in the deduplicated sequence. -/
lemma mem_firstSeenFrom_of_mem (ids : List String) :
    ∀ acc x, x ∈ ids → x ∈ firstSeenFrom acc ids := by
  induction ids with
  | nil => intro acc x hx; simp at hx
  | cons i is ih =>
      intro acc x hx
      rcases List.mem_cons.mp hx with rfl | hx'
      · simp only [firstSeenFrom]
        by_cases hi : x ∈ acc
        · simpa [hi] using mem_firstSeenFrom_left is acc x hi
        · simp only [if_neg hi]
          exact mem_firstSeenFrom_left is (acc ++ [x]) x (by simp)
      · simp only [firstSeenFrom]
        by_cases hi : i ∈ acc <;> simp only [if_pos, if_neg, hi, ite_true, ite_false] <;>
          exact ih _ x hx'

/-- First-seen deduplication preserves distinctness of the accumulator. -/
lemma nodup_firstSeenFrom (ids : List String) :
    ∀ acc, acc.Nodup → (firstSeenFrom acc ids).Nodup := by
  induction ids with
  | nil => intro acc h; simpa [firstSeenFrom] using h
  | cons i is ih =>
      intro acc h
      simp only [firstSeenFrom]
      by_cases hi : i ∈ acc
      · simpa [hi] using ih acc h
      · simp only [if_neg hi]
        refine ih (acc ++ [i]) ?_
        simp [List.nodup_append, h, hi]

/-- A successful `onStoryResult` is exactly a successful test build
followed by the map insertion. -/
lemma onStoryResult_ok_iff (r : Reporter) (context : TestContext) (status : TestState)
    (errors : Option (List JSValue)) (r' : Reporter) :
    onStoryResult r context status errors = Except.ok r' ↔
      ∃ t, makeStoryTest context status errors = Except.ok t ∧
        r' = insertCollected r context.id t := by
  unfold onStoryResult
  cases hmk : makeStoryTest context status errors with
  | error e => simp [Except.map, hmk]
  | ok t =>
      simp only [Except.map, hmk]
      constructor
      · intro h
        injection h with h
        exact ⟨t, rfl, h.symm⟩
      · rintro ⟨t', ht', rfl⟩
        injection ht' with ht'
        subst ht'
        rfl

/-- The built test carries the status argument as its state. -/
lemma makeStoryTest_state (context : TestContext) (status : TestState)
    (errors : Option (List JSValue)) (t : StoryTest)
    (h : makeStoryTest context status errors = Except.ok t) : t.state = status := by
  unfold makeStoryTest at h
  cases errors with
  | none => injection h with h; subst h; rfl
  | some errs =>
      by_cases hlen : errs.length > 0
      · simp only [if_pos hlen] at h
        cases hmap : errs.mapM mapStoryError with
        | error e => rw [hmap] at h; simp [bind, Except.bind] at h
        | ok mapped =>
            rw [hmap] at h
            simp only [bind, Except.bind, Except.ok.injEq] at h
            subst h; rfl
      · simp only [if_neg hlen] at h
        injection h with h; subst h; rfl

/-- Replaying calls transforms the key sequence by first-seen insertion of
the calls' module identifiers. -/
lemma runCalls_keys (calls : List StoryCall) :
    ∀ r r', runCalls r calls = Except.ok r' →
      keysOf r'.collectedTests =
        firstSeenFrom (keysOf r.collectedTests) (calls.map fun c => c.context.id) := by
  induction calls with
  | nil =>
      intro r r' h
      injection h with h
      subst h
      rfl
  | cons c cs ih =>
      intro r r' h
      unfold runCalls at h
      cases hs : onStoryResult r c.context c.status c.errors with
      | error e => rw [hs] at h; simp [bind, Except.bind] at h
      | ok r1 =>
          rw [hs] at h
          simp only [bind, Except.bind] at h
          obtain ⟨t, hmk, rfl⟩ := (onStoryResult_ok_iff r c.context c.status c.errors r1).mp hs
          rw [ih _ _ h]
          have hkeys : keysOf (insertCollected r c.context.id t).collectedTests =
              if c.context.id ∈ keysOf r.collectedTests then keysOf r.collectedTests
              else keysOf r.collectedTests ++ [c.context.id] :=
            keysOf_addTest r.collectedTests c.context.id t
          rw [hkeys]
          simp only [List.map_cons, firstSeenFrom]

/-- Replaying calls appends, per module, exactly the successfully built
tests of the calls addressed to it, in call order. -/
lemma runCalls_moduleTests (calls : List StoryCall) :
    ∀ r r', runCalls r calls = Except.ok r' → ∀ id,
      moduleTests r'.collectedTests id =
        moduleTests r.collectedTests id ++ successfulTests calls id := by
  induction calls with
  | nil =>
      intro r r' h id
      injection h with h
      subst h
      simp [successfulTests]
  | cons c cs ih =>
      intro r r' h id
      unfold runCalls at h
      cases hs : onStoryResult r c.context c.status c.errors with
      | error e => rw [hs] at h; simp [bind, Except.bind] at h
      | ok r1 =>
          rw [hs] at h
          simp only [bind, Except.bind] at h
          obtain ⟨t, hmk, rfl⟩ := (onStoryResult_ok_iff r c.context c.status c.errors r1).mp hs
          rw [ih _ _ h id]
          have hmt : moduleTests (insertCollected r c.context.id t).collectedTests id =
              if id = c.context.id then moduleTests r.collectedTests id ++ [t]
              else moduleTests r.collectedTests id :=
            moduleTests_addTest r.collectedTests c.context.id t id
          rw [hmt]
          by_cases hid : c.context.id = id
          · subst hid
            simp [successfulTests, List.filter_cons, hmk, Except.toOption,
              List.filterMap_cons, List.append_assoc]
          · have hid' : ¬ id = c.context.id := fun hh => hid hh.symm
            simp [successfulTests, List.filter_cons, hid, hid']

/-- Replaying `n` successful calls grows the flattened test sequence by
exactly `n`. -/
lemma runCalls_length (calls : List StoryCall) :
    ∀ r r', runCalls r calls = Except.ok r' →
      (flatTests r'.collectedTests).length =
        (flatTests r.collectedTests).length + calls.length := by
  induction calls with
  | nil =>
      intro r r' h
      injection h with h
      subst h
      simp
  | cons c cs ih =>
      intro r r' h
      unfold runCalls at h
      cases hs : onStoryResult r c.context c.status c.errors with
      | error e => rw [hs] at h; simp [bind, Except.bind] at h
      | ok r1 =>
          rw [hs] at h
          simp only [bind, Except.bind] at h
          obtain ⟨t, hmk, rfl⟩ := (onStoryResult_ok_iff r c.context c.status c.errors r1).mp hs
          have hlen : (flatTests (insertCollected r c.context.id t).collectedTests).length =
              (flatTests r.collectedTests).length + 1 :=
            flatTests_addTest_length r.collectedTests c.context.id t
          rw [ih _ _ h, hlen]
          simp [Nat.add_assoc, Nat.add_comm]
          omega

/-- Every test accumulated by a replay was already present or was built by
one of the replayed calls. -/
lemma runCalls_mem_flat (calls : List StoryCall) :
    ∀ r r', runCalls r calls = Except.ok r' → ∀ t, t ∈ flatTests r'.collectedTests →
      t ∈ flatTests r.collectedTests ∨
        ∃ c ∈ calls, makeStoryTest c.context c.status c.errors = Except.ok t := by
  induction calls with
  | nil =>
      intro r r' h t ht
      injection h with h
      subst h
      exact Or.inl ht
  | cons c cs ih =>
      intro r r' h t ht
      unfold runCalls at h
      cases hs : onStoryResult r c.context c.status c.errors with
      | error e => rw [hs] at h; simp [bind, Except.bind] at h
      | ok r1 =>
          rw [hs] at h
          simp only [bind, Except.bind] at h
          obtain ⟨t0, hmk, rfl⟩ := (onStoryResult_ok_iff r c.context c.status c.errors r1).mp hs
          rcases ih _ _ h t ht with hin | ⟨c', hc', hmk'⟩
          · rcases mem_flatTests_addTest r.collectedTests c.context.id t0 t hin with hin' | rfl
            · exact Or.inl hin'
            · exact Or.inr ⟨c, List.mem_cons_self c cs, hmk⟩
          · exact Or.inr ⟨c', List.mem_cons_of_mem c hc', hmk'⟩

/-- The persisted module identifiers are exactly the accumulation map's
keys, in order. -/
lemma buildOutput_moduleIds (r : Reporter) :
    (buildOutput r).testModules.map StoryModule.moduleId = keysOf r.collectedTests := by
  simp only [buildOutput, keysOf, List.map_map]
  rfl

/-- Flattening the persisted modules yields the accumulated tests in map
order. -/
lemma flatMap_map_tests (m : List (String × List StoryTest)) :
    ((m.map (fun p => ({ moduleId := p.1, tests := p.2 } : StoryModule))).flatMap
      StoryModule.tests) = flatTests m := by
  induction m with
  | nil => simp [flatTests]
  | cons hd rest ih => simp [flatTests, ih]

/-- Flattened form of the built output. -/
lemma buildOutput_flat (r : Reporter) :
    (buildOutput r).testModules.flatMap StoryModule.tests = flatTests r.collectedTests := by
  simpa [buildOutput] using flatMap_map_tests r.collectedTests

/-- Every persisted module corresponds to an accumulation-map entry. -/
lemma mem_buildOutput (r : Reporter) (m : StoryModule)
    (h : m ∈ (buildOutput r).testModules) :
    (m.moduleId, m.tests) ∈ r.collectedTests := by
  simp only [buildOutput, List.mem_map] at h
  obtain ⟨p, hp, rfl⟩ := h
  simpa using hp

/-- Boolean and propositional equality agree on test states. -/
lemma testState_beq_iff (a b : TestState) : (a == b) = true ↔ a = b := by
  cases a <;> cases b <;> decide

/-- The reducer never invents the `interrupted` reason. -/
lemma determineReason_ne_interrupted (tms : List StoryModule) :
    determineReason tms ≠ some RunReason.interrupted := by
  simp only [determineReason]
  split
  · simp
  · split <;> simp

/-- The reducer yields the unset reason exactly on an empty flattened test
sequence. -/
lemma determineReason_eq_none_iff (tms : List StoryModule) :
    determineReason tms = none ↔ tms.flatMap StoryModule.tests = [] := by
  simp only [determineReason]
  split
  · rename_i h
    simp [List.length_eq_zero.mp h]
  · rename_i h
    have hne : ¬ tms.flatMap StoryModule.tests = [] := by
      intro hnil
      apply h
      rw [show (tms.flatMap fun m => m.tests) = tms.flatMap StoryModule.tests from rfl, hnil]
      rfl
    split <;> simp [hne]

/-- Any failed test forces the `failed` reason. -/
lemma determineReason_failed (tms : List StoryModule)
    (h : ∃ t ∈ tms.flatMap StoryModule.tests, t.state = TestState.failed) :
    determineReason tms = some RunReason.failed := by
  obtain ⟨t, ht, hstate⟩ := h
  have hne : tms.flatMap StoryModule.tests ≠ [] := List.ne_nil_of_mem ht
  have hlen : ¬ (tms.flatMap StoryModule.tests).length = 0 := by
    intro h0
    exact hne (List.length_eq_zero.mp h0)
  have hany : (tms.flatMap StoryModule.tests).any (fun u => u.state == TestState.failed) = true :=
    List.any_eq_true.mpr ⟨t, ht, (testState_beq_iff t.state TestState.failed).mpr hstate⟩
  simp only [determineReason]
  rw [if_neg hlen, if_pos hany]

/-- A non-empty flattened sequence with no failed test reduces to
`passed`. -/
lemma determineReason_passed (tms : List StoryModule)
    (hne : tms.flatMap StoryModule.tests ≠ [])
    (h : ∀ t ∈ tms.flatMap StoryModule.tests, t.state ≠ TestState.failed) :
    determineReason tms = some RunReason.passed := by
  have hlen : ¬ (tms.flatMap StoryModule.tests).length = 0 := by
    intro h0
    exact hne (List.length_eq_zero.mp h0)
  have hany : ¬ (tms.flatMap StoryModule.tests).any
      (fun u => u.state == TestState.failed) = true := by
    intro hh
    obtain ⟨t, ht, hstate⟩ := List.any_eq_true.mp hh
    exact h t ht ((testState_beq_iff t.state TestState.failed).mp hstate)
  simp only [determineReason]
  rw [if_neg hlen, if_neg hany]

/-- C1: the run-status reducer `determineReason`, applied to any finite
sequence of accumulated modules, returns exactly one of unset, `failed`
or `passed`: unset iff the flattened test sequence is empty, `failed`
when some test failed, `passed` otherwise; it never returns
`interrupted`. -/
theorem determineReason_total (tms : List StoryModule) :
    determineReason tms ≠ some RunReason.interrupted ∧
    (determineReason tms = none ↔ tms.flatMap StoryModule.tests = []) ∧
    ((∃ t ∈ tms.flatMap StoryModule.tests, t.state = TestState.failed) →
      determineReason tms = some RunReason.failed) ∧
    (tms.flatMap StoryModule.tests ≠ [] →
      (∀ t ∈ tms.flatMap StoryModule.tests, t.state ≠ TestState.failed) →
      determineReason tms = some RunReason.passed) :=
  ⟨determineReason_ne_interrupted tms, determineReason_eq_none_iff tms,
    determineReason_failed tms, determineReason_passed tms⟩

/-- Witness for C1: on one module holding one failed test the reducer
yields `failed`. -/
theorem determineReason_total_witness :
    determineReason [⟨"m.stories.ts", [⟨"a", "T > a", TestState.failed, none⟩]⟩] =
      some RunReason.failed :=
  (determineReason_total [⟨"m.stories.ts", [⟨"a", "T > a", TestState.failed, none⟩]⟩]).2.2.1
    ⟨⟨"a", "T > a", TestState.failed, none⟩, by simp, rfl⟩

/-- C2: after any successful sequence of `onStoryResult` calls, the
persisted module identifiers are pairwise distinct, and every call's
module identifier occurs among them — so any two calls sharing a
`context.id` land in the same single module. -/
theorem moduleId_grouping (calls : List StoryCall) (r' : Reporter)
    (h : runCalls emptyReporter calls = Except.ok r') :
    ((buildOutput r').testModules.map StoryModule.moduleId).Nodup ∧
    ∀ c ∈ calls, c.context.id ∈ (buildOutput r').testModules.map StoryModule.moduleId := by
  rw [buildOutput_moduleIds, runCalls_keys calls emptyReporter r' h]
  constructor
  · exact nodup_firstSeenFrom _ _ List.nodup_nil
  · intro c hc
    exact mem_firstSeenFrom_of_mem _ _ _ (List.mem_map_of_mem _ hc)

/-- Witness for C2: two calls with the same module identifier produce one
module whose identifier list is the duplicate-free singleton. -/
theorem moduleId_grouping_witness :
    ((buildOutput ⟨[("a", [⟨"n1", "T > n1", TestState.passed, none⟩,
        ⟨"n2", "T > n2", TestState.passed, none⟩])]⟩).testModules.map
      StoryModule.moduleId).Nodup ∧
    ∀ c ∈ [(⟨⟨"a", "T", "n1"⟩, TestState.passed, none⟩ : StoryCall),
           ⟨⟨"a", "T", "n2"⟩, TestState.passed, none⟩],
      c.context.id ∈ ((buildOutput ⟨[("a", [⟨"n1", "T > n1", TestState.passed, none⟩,
        ⟨"n2", "T > n2", TestState.passed, none⟩])]⟩).testModules.map
          StoryModule.moduleId) :=
  moduleId_grouping
    [⟨⟨"a", "T", "n1"⟩, TestState.passed, none⟩, ⟨⟨"a", "T", "n2"⟩, TestState.passed, none⟩]
    ⟨[("a", [⟨"n1", "T > n1", TestState.passed, none⟩,
        ⟨"n2", "T > n2", TestState.passed, none⟩])]⟩ (by rfl)

/-- C3: after `N` successful `onStoryResult` calls and one `onComplete`,
the flattened test count of the persisted output equals `N`. -/
theorem flattened_test_count (calls : List StoryCall) (r' : Reporter)
    (h : runCalls emptyReporter calls = Except.ok r') :
    ((buildOutput r').testModules.flatMap StoryModule.tests).length = calls.length := by
  rw [buildOutput_flat]
  simpa [emptyReporter, flatTests] using runCalls_length calls emptyReporter r' h

/-- Witness for C3: two calls yield a flattened count of two. -/
theorem flattened_test_count_witness :
    ((buildOutput ⟨[("a", [⟨"n1", "T > n1", TestState.passed, none⟩]),
        ("b", [⟨"n2", "U > n2", TestState.failed, none⟩])]⟩).testModules.flatMap
      StoryModule.tests).length = 2 :=
  flattened_test_count
    [⟨⟨"a", "T", "n1"⟩, TestState.passed, none⟩, ⟨⟨"b", "U", "n2"⟩, TestState.failed, none⟩]
    ⟨[("a", [⟨"n1", "T > n1", TestState.passed, none⟩]),
      ("b", [⟨"n2", "U > n2", TestState.failed, none⟩])]⟩ (by rfl)

/-- C4: calling `onComplete` twice with no intervening `onStoryResult`
performs two writes with identical serialized content, because the write
is re-derived from the accumulated state, which `onComplete` leaves
unchanged. -/
theorem onComplete_twice_identical (w : World) :
    (onComplete (onComplete w)).writes =
      w.writes ++ [serializeOutput (buildOutput w.reporter),
        serializeOutput (buildOutput w.reporter)] ∧
    (onComplete w).reporter = w.reporter := by
  simp [onComplete]

/-- C10: calling `onStoryResult` with the status argument omitted records
a test with state `passed` and no errors, for every context, without
rejection. -/
theorem default_status_passed (r : Reporter) (context : TestContext) :
    ∃ r' t, onStoryResultDefault r context = Except.ok r' ∧
      moduleTests r'.collectedTests context.id =
        moduleTests r.collectedTests context.id ++ [t] ∧
      t.state = TestState.passed ∧ t.errors = none := by
  refine ⟨insertCollected r context.id
      ⟨context.name, context.title ++ " > " ++ context.name, TestState.passed, none⟩,
    ⟨context.name, context.title ++ " > " ++ context.name, TestState.passed, none⟩,
    rfl, ?_, rfl, rfl⟩
  simpa using moduleTests_addTest r.collectedTests context.id
    ⟨context.name, context.title ++ " > " ++ context.name, TestState.passed, none⟩ context.id

/-- C5: an empty run is persisted with an empty module list and the
reason absent (also absent from the serialized write), while a run of at
least one passing call (and only passing calls) is persisted with a
non-empty module list and reason `passed`. -/
theorem empty_run_distinct_from_passing :
    (buildOutput emptyReporter =
        { testModules := [], unhandledErrors := [], reason := none } ∧
      (onComplete { reporter := emptyReporter, writes := [] }).writes =
        ["\x7b\"testModules\":[],\"unhandledErrors\":[]\x7d"]) ∧
    ∀ calls r', calls ≠ [] → (∀ c ∈ calls, c.status = TestState.passed) →
      runCalls emptyReporter calls = Except.ok r' →
      (buildOutput r').testModules ≠ [] ∧
      (buildOutput r').reason = some RunReason.passed := by
  refine ⟨⟨by rfl, by rfl⟩, ?_⟩
  intro calls r' hne hall h
  constructor
  · intro hnil
    obtain ⟨c0, cs0, rfl⟩ := List.exists_cons_of_ne_nil hne
    have hmem : c0.context.id ∈ (buildOutput r').testModules.map StoryModule.moduleId := by
      rw [buildOutput_moduleIds, runCalls_keys _ _ _ h]
      exact mem_firstSeenFrom_of_mem _ _ _ (by simp)
    rw [hnil] at hmem
    simp at hmem
  · show determineReason (buildOutput r').testModules = some RunReason.passed
    apply determineReason_passed
    · rw [buildOutput_flat]
      intro hnil
      have hlen := runCalls_length calls emptyReporter r' h
      rw [hnil] at hlen
      simp [emptyReporter, flatTests] at hlen
      exact hne (List.length_eq_zero.mp hlen.symm)
    · intro t ht hfail
      rw [buildOutput_flat] at ht
      rcases runCalls_mem_flat calls emptyReporter r' h t ht with h0 | ⟨c, hc, hmk⟩
      · simp [emptyReporter, flatTests] at h0
      · have hstate := makeStoryTest_state c.context c.status c.errors t hmk
        rw [hall c hc, hfail] at hstate
        exact TestState.noConfusion hstate

/-- Witness for C5: one passing call persists a non-empty module list
with reason `passed`. -/
theorem empty_run_distinct_from_passing_witness :
    (buildOutput ⟨[("a", [⟨"n", "T > n", TestState.passed, none⟩])]⟩).testModules ≠ [] ∧
    (buildOutput ⟨[("a", [⟨"n", "T > n", TestState.passed, none⟩])]⟩).reason =
      some RunReason.passed :=
  empty_run_distinct_from_passing.2 [⟨⟨"a", "T", "n"⟩, TestState.passed, none⟩]
    ⟨[("a", [⟨"n", "T > n", TestState.passed, none⟩])]⟩ (by simp)
    (by intro c hc; rw [List.mem_singleton] at hc; subst hc; rfl) (by rfl)

/-- C6 counterexample: a call carrying status `passed` together with a
non-empty errors argument records a test whose state is `passed` and
which nevertheless has errors attached — refuting that a passed or
skipped test never carries errors. -/
theorem passed_test_with_errors_cex :
    onStoryResult emptyReporter ⟨"file.stories.ts", "Button", "Primary"⟩ TestState.passed
        (some [JSValue.obj (JSFields.cons "message" (JSValue.str "boom") JSFields.nil)]) =
      Except.ok ⟨[("file.stories.ts",
        [⟨"Primary", "Button > Primary", TestState.passed,
          some [⟨"boom", JSValue.undefined, none, none⟩]⟩])]⟩ ∧
    (some [(⟨"boom", JSValue.undefined, none, none⟩ : StoryError)] ≠
      (none : Option (List StoryError))) :=
  ⟨by rfl, by simp⟩

/-- C6 amended: the recorded test carries errors exactly when the call
supplied a non-empty errors argument, regardless of its state — so
without supplied errors a passed or skipped (or failed) test has none
attached. -/
theorem errors_iff_supplied (context : TestContext) (status : TestState)
    (errors : Option (List JSValue)) (t : StoryTest)
    (h : makeStoryTest context status errors = Except.ok t) :
    t.errors = none ↔ errors.getD [] = [] := by
  cases errors with
  | none =>
      simp only [makeStoryTest] at h
      injection h with h
      subst h
      simp
  | some errs =>
      cases errs with
      | nil =>
          simp only [makeStoryTest] at h
          rw [if_neg (by simp)] at h
          injection h with h
          subst h
          simp
      | cons e es =>
          simp only [makeStoryTest] at h
          rw [if_pos (by simp)] at h
          cases hmap : (e :: es).mapM mapStoryError with
          | error err => rw [hmap] at h; simp [bind, Except.bind] at h
          | ok mapped =>
              rw [hmap] at h
              simp only [bind, Except.bind, Except.ok.injEq] at h
              subst h
              simp

/-- Witness for C6 amended: a skipped call without errors records no
errors. -/
theorem errors_iff_supplied_witness :
    ((⟨"n", "T > n", TestState.skipped, none⟩ : StoryTest).errors = none ↔
      (none : Option (List JSValue)).getD [] = []) :=
  errors_iff_supplied ⟨"f", "T", "n"⟩ TestState.skipped none
    ⟨"n", "T > n", TestState.skipped, none⟩ rfl

/-- C7 counterexample: a `null` error entry makes `onStoryResult` raise a
`TypeError` (the property access `errorObj.message` on `null`), refuting
that it never raises on malformed error input. -/
theorem null_error_entry_raises :
    onStoryResult emptyReporter ⟨"f", "T", "n"⟩ TestState.failed (some [JSValue.null]) =
      Except.error "TypeError: Cannot read properties of null (reading message)" := by
  rfl

/-- C7 amended: for every non-null, non-undefined error entry the mapping
does not raise and yields an Error record whose message is the entry's
`message` field when that field is a string and the string conversion of
the raw entry otherwise, and whose `expected` and `actual` fields are
never populated; null and undefined entries instead raise a
`TypeError`. -/
theorem mapStoryError_message_spec (v : JSValue) (h1 : v ≠ JSValue.null)
    (h2 : v ≠ JSValue.undefined) :
    mapStoryError v = Except.ok
      { message := match propOrUndefined v "message" with
                   | JSValue.str s => s
                   | _ => jsString v
        stack := propOrUndefined v "stack"
        expected := none
        actual := none } := by
  cases v with
  | null => exact absurd rfl h1
  | undefined => exact absurd rfl h2
  | str s => rfl
  | num n => rfl
  | bool b => rfl
  | obj fields => rfl

/-- Witness for C7 amended: an object entry with string message and stack
maps to exactly that Error record, with `expected`/`actual` absent. -/
theorem mapStoryError_message_spec_witness :
    mapStoryError (JSValue.obj (JSFields.cons "message" (JSValue.str "boom")
        (JSFields.cons "stack" (JSValue.str "trace") JSFields.nil))) =
      Except.ok ⟨"boom", JSValue.str "trace", none, none⟩ :=
  mapStoryError_message_spec
    (JSValue.obj (JSFields.cons "message" (JSValue.str "boom")
      (JSFields.cons "stack" (JSValue.str "trace") JSFields.nil)))
    (fun h => nomatch h) (fun h => nomatch h)

/-- C8: the persisted output preserves first-observed order — modules
appear in the order their identifiers were first seen, and each module's
tests appear in the order of the corresponding calls. -/
theorem first_seen_order (calls : List StoryCall) (r' : Reporter)
    (h : runCalls emptyReporter calls = Except.ok r') :
    (buildOutput r').testModules.map StoryModule.moduleId =
      firstSeen (calls.map fun c => c.context.id) ∧
    ∀ m ∈ (buildOutput r').testModules, m.tests = successfulTests calls m.moduleId := by
  have hkeys := runCalls_keys calls emptyReporter r' h
  constructor
  · rw [buildOutput_moduleIds, hkeys]
    rfl
  · intro m hm
    have hmem := mem_buildOutput r' m hm
    have hnodup : (keysOf r'.collectedTests).Nodup := by
      rw [hkeys]
      exact nodup_firstSeenFrom _ _ List.nodup_nil
    have hts := moduleTests_of_mem r'.collectedTests hnodup m.moduleId m.tests hmem
    have hrun := runCalls_moduleTests calls emptyReporter r' h m.moduleId
    rw [hts] at hrun
    simpa [emptyReporter, moduleTests] using hrun

/-- Witness for C8: interleaved calls to modules `a`, `b`, `a` persist
modules in first-seen order `a`, `b`, with module `a` holding its two
tests in call order. -/
theorem first_seen_order_witness :
    ((buildOutput ⟨[("a", [⟨"n1", "T > n1", TestState.passed, none⟩,
          ⟨"n3", "T > n3", TestState.failed, none⟩]),
        ("b", [⟨"n2", "U > n2", TestState.passed, none⟩])]⟩).testModules.map
      StoryModule.moduleId =
      firstSeen ([⟨⟨"a", "T", "n1"⟩, TestState.passed, none⟩,
        ⟨⟨"b", "U", "n2"⟩, TestState.passed, none⟩,
        (⟨⟨"a", "T", "n3"⟩, TestState.failed, none⟩ : StoryCall)].map
          fun c => c.context.id)) ∧
    ∀ m ∈ (buildOutput ⟨[("a", [⟨"n1", "T > n1", TestState.passed, none⟩,
          ⟨"n3", "T > n3", TestState.failed, none⟩]),
        ("b", [⟨"n2", "U > n2", TestState.passed, none⟩])]⟩).testModules,
      m.tests = successfulTests [⟨⟨"a", "T", "n1"⟩, TestState.passed, none⟩,
        ⟨⟨"b", "U", "n2"⟩, TestState.passed, none⟩,
        ⟨⟨"a", "T", "n3"⟩, TestState.failed, none⟩] m.moduleId :=
  first_seen_order
    [⟨⟨"a", "T", "n1"⟩, TestState.passed, none⟩,
      ⟨⟨"b", "U", "n2"⟩, TestState.passed, none⟩,
      ⟨⟨"a", "T", "n3"⟩, TestState.failed, none⟩]
    ⟨[("a", [⟨"n1", "T > n1", TestState.passed, none⟩,
        ⟨"n3", "T > n3", TestState.failed, none⟩]),
      ("b", [⟨"n2", "U > n2", TestState.passed, none⟩])]⟩ (by rfl)

/-- The accumulated state of a run whose single recorded story passed, at
the moment an exit handler fires. -/
def singlePassedReporter : Reporter :=
  ⟨[("Button.stories.tsx", [⟨"Primary", "Button > Primary", TestState.passed, none⟩])]⟩

/-- C9: evaluating the code on the interruption scenario — one passing
`onStoryResult`, then the registered exit handler invokes `onComplete()`
— the terminal write carries reason `passed`, not `interrupted`: no code
path of the adapter ever forces `interrupted`, contradicting the
documented interruption behavior. -/
theorem interruption_scenario_persists_passed :
    runCalls emptyReporter
        [⟨⟨"Button.stories.tsx", "Button", "Primary"⟩, TestState.passed, none⟩] =
      Except.ok singlePassedReporter ∧
    (buildOutput singlePassedReporter).reason = some RunReason.passed ∧
    (onComplete { reporter := singlePassedReporter, writes := [] }).writes =
      ["\x7b\"testModules\":[\x7b\"moduleId\":\"Button.stories.tsx\",\"tests\":[\x7b\"name\":\"Primary\",\"fullName\":\"Button > Primary\",\"state\":\"passed\"\x7d]\x7d],\"unhandledErrors\":[],\"reason\":\"passed\"\x7d"] :=
  ⟨by rfl, by rfl, by rfl⟩
